import Mathlib

set_option maxRecDepth 100000

/-!
Verification of the news-monitor pipeline (`news_monitor.py`).

Strings are modelled as `List Char`; Python `str.lower`, `str.replace`,
`str.strip`, substring tests and the regex patterns actually used by the
program are embedded as executable functions on `List Char`.  Network and
clock effects are passed in as explicit parameters; the e-mail transport is
modelled by collecting the send requests the orchestrator would issue.
-/

/-- Model of Python `str.lower` on a single character (ASCII range, which is
the range exercised by the program's keywords and titles). -/
def lowerChar (c : Char) : Char :=
  if 'A' ≤ c ∧ c ≤ 'Z' then Char.ofNat (c.toNat + 32) else c

/-- Model of Python `str.lower`. -/
def lowerStr (s : List Char) : List Char :=
  s.map lowerChar

/-- Model of the Python substring test `pat in hay`: scan positions left to
right and test whether `pat` starts at one of them. -/
def strContains : List Char → List Char → Bool
  | hay@(_ :: t), pat => pat.isPrefixOf hay || strContains t pat
  | [], pat => pat.isPrefixOf []

/-- An extracted news item, as built by `fetch_google_news`:
`{'title': ..., 'link': ..., 'pubDate': ..., 'source': ...}`. -/
structure Article where
  title : List Char
  link : List Char
  pubDate : List Char
  source : List Char
  deriving DecidableEq

/-- Embedding of `NewsMonitor.check_keyword_in_news` (news_monitor.py lines
101-110): keep exactly the items whose lowercased title contains the
lowercased keyword; the accumulating loop is a filter. -/
def check_keyword_in_news (news_items : List Article) (keyword : List Char) : List Article :=
  let keyword_lower := lowerStr keyword
  news_items.filter (fun item => strContains (lowerStr item.title) keyword_lower)

/-- Embedding of the duplicate-removal loop of `run_keyword_monitor`
(news_monitor.py lines 288-293): `seen` is the `seen_titles` set, carried as
the list of titles already emitted. -/
def dedupGo (seen : List (List Char)) : List Article → List Article
  | [] => []
  | item :: rest =>
    if item.title ∈ seen then dedupGo seen rest
    else item :: dedupGo (item.title :: seen) rest

/-- The duplicate-removal step of `run_keyword_monitor`, started with an
empty `seen_titles` set. -/
def dedupByTitle (all_news : List Article) : List Article :=
  dedupGo [] all_news

theorem strContains_iff (hay pat : List Char) :
    strContains hay pat = true ↔ pat <:+: hay := by
  induction hay with
  | nil => simp [strContains]
  | cons h t ih => simp [strContains, ih, List.infix_cons_iff]

theorem dedupGo_sublist (seen : List (List Char)) (l : List Article) :
    (dedupGo seen l).Sublist l := by
  induction l generalizing seen with
  | nil => simp [dedupGo]
  | cons x xs ih =>
    by_cases h : x.title ∈ seen
    · simp only [dedupGo, if_pos h]
      exact (ih seen).trans (List.sublist_cons_self x xs)
    · simp only [dedupGo, if_neg h]
      exact (ih (x.title :: seen)).cons₂ x

theorem dedupGo_firstOcc (seen : List (List Char)) (l : List Article) :
    ∀ a ∈ dedupGo seen l,
      a.title ∉ seen ∧ ∃ p q, l = p ++ a :: q ∧ a.title ∉ p.map (fun b => b.title) := by
  induction l generalizing seen with
  | nil => simp [dedupGo]
  | cons x xs ih =>
    intro a ha
    by_cases h : x.title ∈ seen
    · rw [dedupGo, if_pos h] at ha
      obtain ⟨hns, p, q, heq, hnp⟩ := ih seen a ha
      refine ⟨hns, x :: p, q, by rw [heq]; rfl, ?_⟩
      simp only [List.map_cons, List.mem_cons]
      rintro (hax | hmem)
      · exact hns (hax ▸ h)
      · exact hnp hmem
    · rw [dedupGo, if_neg h] at ha
      rcases List.mem_cons.mp ha with rfl | ha'
      · exact ⟨h, [], xs, rfl, by simp⟩
      · obtain ⟨hns, p, q, heq, hnp⟩ := ih (x.title :: seen) a ha'
        have hne : a.title ≠ x.title := fun hEq => hns (by simp [hEq])
        refine ⟨fun hs => hns (by simp [hs]), x :: p, q, by rw [heq]; rfl, ?_⟩
        simp only [List.map_cons, List.mem_cons]
        rintro (hax | hmem)
        · exact hne hax
        · exact hnp hmem

theorem dedupGo_titles_nodup (seen : List (List Char)) (l : List Article) :
    ((dedupGo seen l).map (fun a => a.title)).Nodup := by
  induction l generalizing seen with
  | nil => simp [dedupGo]
  | cons x xs ih =>
    by_cases h : x.title ∈ seen
    · simp only [dedupGo, if_pos h]
      exact ih seen
    · simp only [dedupGo, if_neg h, List.map_cons, List.nodup_cons]
      refine ⟨?_, ih (x.title :: seen)⟩
      intro hmem
      obtain ⟨b, hb, hbt⟩ := List.mem_map.mp hmem
      have := (dedupGo_firstOcc (x.title :: seen) xs b hb).1
      exact this (by simp [hbt])

theorem dedupGo_titles_complete (seen : List (List Char)) (l : List Article) :
    ∀ t ∈ l.map (fun a => a.title),
      t ∈ seen ∨ t ∈ (dedupGo seen l).map (fun a => a.title) := by
  induction l generalizing seen with
  | nil => simp
  | cons x xs ih =>
    intro t ht
    by_cases h : x.title ∈ seen
    · simp only [dedupGo, if_pos h]
      rcases List.mem_map.mp ht with ⟨b, hb, rfl⟩
      rcases List.mem_cons.mp hb with rfl | hb'
      · exact Or.inl h
      · exact ih seen b.title (List.mem_map_of_mem _ hb')
    · simp only [dedupGo, if_neg h, List.map_cons]
      rcases List.mem_map.mp ht with ⟨b, hb, rfl⟩
      rcases List.mem_cons.mp hb with rfl | hb'
      · exact Or.inr (List.mem_cons_self _ _)
      · rcases ih (x.title :: seen) b.title (List.mem_map_of_mem _ hb') with hs | ho
        · rcases List.mem_cons.mp hs with hEq | hs'
          · exact Or.inr (by simp [hEq])
          · exact Or.inl hs'
        · exact Or.inr (List.mem_cons_of_mem _ ho)

/-- Claim C1: over any concatenated article list, the duplicate-removal step
of `run_keyword_monitor` keeps exactly one article per distinct title — the
output is a subsequence of the input, its titles are pairwise distinct, its
length is the number of distinct titles of the input, every survivor is the
first occurrence of its title, and on input titles A, B, A, C the output
titles are A, B, C in that order. -/
theorem dedupByTitle_spec (l : List Article) :
    (dedupByTitle l).Sublist l ∧
    ((dedupByTitle l).map (fun a => a.title)).Nodup ∧
    (dedupByTitle l).length = (l.map (fun a => a.title)).dedup.length ∧
    (∀ a ∈ dedupByTitle l,
      ∃ p q, l = p ++ a :: q ∧ a.title ∉ p.map (fun b => b.title)) ∧
    dedupByTitle
        [⟨"A".data, "l1".data, [], []⟩, ⟨"B".data, "l2".data, [], []⟩,
         ⟨"A".data, "l3".data, [], []⟩, ⟨"C".data, "l4".data, [], []⟩] =
      [⟨"A".data, "l1".data, [], []⟩, ⟨"B".data, "l2".data, [], []⟩,
       ⟨"C".data, "l4".data, [], []⟩] := by
  refine ⟨dedupGo_sublist [] l, dedupGo_titles_nodup [] l, ?_, ?_, by decide⟩
  · have hperm :
        List.Perm ((dedupByTitle l).map (fun a => a.title))
          ((l.map (fun a => a.title)).dedup) := by
      refine (List.perm_ext_iff_of_nodup (dedupGo_titles_nodup [] l)
        (List.nodup_dedup _)).mpr ?_
      intro t
      rw [List.mem_dedup]
      constructor
      · intro ht
        exact ((dedupGo_sublist [] l).map (fun a => a.title)).mem ht
      · intro ht
        rcases dedupGo_titles_complete [] l t ht with hs | ho
        · exact absurd hs (List.not_mem_nil t)
        · exact ho
    have := hperm.length_eq
    simpa using this
  · intro a ha
    exact (dedupGo_firstOcc [] l a ha).2

/-- Witness for C1: on the concrete A, B, A, C input, the second A is
dropped and the surviving first A is a genuine first occurrence. -/
theorem dedupByTitle_spec_witness :
    ∃ p q,
      ([⟨"A".data, "l1".data, [], []⟩, ⟨"B".data, "l2".data, [], []⟩,
        ⟨"A".data, "l3".data, [], []⟩, ⟨"C".data, "l4".data, [], []⟩] : List Article)
        = p ++ (⟨"B".data, "l2".data, [], []⟩ : Article) :: q ∧
      ("B".data : List Char) ∉ p.map (fun b => b.title) := by
  have h := (dedupByTitle_spec
    [⟨"A".data, "l1".data, [], []⟩, ⟨"B".data, "l2".data, [], []⟩,
     ⟨"A".data, "l3".data, [], []⟩, ⟨"C".data, "l4".data, [], []⟩]).2.2.2.1
    ⟨"B".data, "l2".data, [], []⟩ (by decide)
  simpa using h

/-- Claim C2: `check_keyword_in_news` keeps an article exactly when the
lowercased keyword is a substring of the lowercased title; no word-boundary
requirement, so keyword ilkyar matches the title "ILKYAR protest update" and
a title containing "ilkyarish". -/
theorem check_keyword_in_news_spec (news_items : List Article) (keyword : List Char)
    (a : Article) :
    (a ∈ check_keyword_in_news news_items keyword ↔
      a ∈ news_items ∧ lowerStr keyword <:+: lowerStr a.title) ∧
    check_keyword_in_news
        [⟨"ILKYAR protest update".data, "l1".data, [], []⟩,
         ⟨"something-ilkyarish".data, "l2".data, [], []⟩,
         ⟨"weather report".data, "l3".data, [], []⟩] ("ilkyar".data) =
      [⟨"ILKYAR protest update".data, "l1".data, [], []⟩,
       ⟨"something-ilkyarish".data, "l2".data, [], []⟩] := by
  constructor
  · simp [check_keyword_in_news, List.mem_filter, strContains_iff]
  · decide

/-- Witness for C2: the iff applied at a concrete matching article. -/
theorem check_keyword_in_news_spec_witness :
    (⟨"ILKYAR protest update".data, "l1".data, [], []⟩ : Article) ∈
      check_keyword_in_news [⟨"ILKYAR protest update".data, "l1".data, [], []⟩]
        ("ilkyar".data) := by
  exact (check_keyword_in_news_spec [⟨"ILKYAR protest update".data, "l1".data, [], []⟩]
    ("ilkyar".data) ⟨"ILKYAR protest update".data, "l1".data, [], []⟩).1.mpr
    ⟨by decide, by decide⟩

/-- Claim C10: the keyword matcher returns a subsequence of its input — the
relative order is preserved, and no article is duplicated or synthesized
(every article's multiplicity in the output is at most its multiplicity in
the input). -/
theorem check_keyword_in_news_sublist (news_items : List Article) (keyword : List Char) :
    (check_keyword_in_news news_items keyword).Sublist news_items ∧
    ∀ a : Article,
      (check_keyword_in_news news_items keyword).count a ≤ news_items.count a := by
  have hsub : (check_keyword_in_news news_items keyword).Sublist news_items :=
    List.filter_sublist _
  exact ⟨hsub, fun a => hsub.count_le a⟩

/-- Model of Python `str.replace(pat, rep)`: scan left to right, replace each
non-overlapping occurrence, and continue after the replacement (the
replacement text is not rescanned).  The recursion is driven by a fuel
argument so that the function stays kernel-computable; at every call site
the fuel is the length of the scanned string, which is always enough, and
when the pattern does not occur the result is the input for any fuel. -/
def pyReplaceF (pat rep : List Char) : Nat → List Char → List Char
  | _, [] => []
  | 0, s => s
  | fuel + 1, c :: cs =>
    if pat ≠ [] ∧ pat.isPrefixOf (c :: cs) then
      rep ++ pyReplaceF pat rep fuel ((c :: cs).drop pat.length)
    else
      c :: pyReplaceF pat rep fuel cs

/-- Python `str.replace(pat, rep)` on a whole string. -/
def pyReplace (pat rep s : List Char) : List Char :=
  pyReplaceF pat rep s.length s

/-- Model of `re.sub(r'<[^>]+>', '', text)`: at each `<`, the greedy
character class runs to the first later `>`; a match needs at least one
character in between.  On a match the tag is deleted and scanning resumes
after the `>`; otherwise scanning advances one character.  Fuel-driven for
kernel computability; fuel equal to the string length always suffices. -/
def removeTagsF : Nat → List Char → List Char
  | _, [] => []
  | 0, s => s
  | fuel + 1, c :: cs =>
    if c = '<' then
      match cs.dropWhile (fun ch => ch ≠ '>') with
      | '>' :: b =>
        if (cs.takeWhile (fun ch => ch ≠ '>')).isEmpty then c :: removeTagsF fuel cs
        else removeTagsF fuel b
      | _ => c :: removeTagsF fuel cs
    else c :: removeTagsF fuel cs

/-- Tag removal on a whole string. -/
def removeTags (s : List Char) : List Char :=
  removeTagsF s.length s

/-- The whitespace class trimmed by Python `str.strip()` (ASCII part). -/
def isPySpace (c : Char) : Bool :=
  c = ' ' || c = '\t' || c = '\n' || c = '\r' || c = '\x0b' || c = '\x0c'

/-- Model of Python `str.strip()`: trim `isPySpace` characters from both
ends. -/
def pyStrip (s : List Char) : List Char :=
  List.rdropWhile isPySpace (s.dropWhile isPySpace)

/-- Embedding of `NewsMonitor._clean_html` (news_monitor.py lines 91-99):
strip tags, then unescape the five fixed entities in source order, then
strip surrounding whitespace. -/
def _clean_html (text : List Char) : List Char :=
  pyStrip (pyReplace ("&#39;".data) ("\x27".data)
    (pyReplace ("&quot;".data) ("\"".data)
      (pyReplace ("&gt;".data) (">".data)
        (pyReplace ("&lt;".data) ("<".data)
          (pyReplace ("&amp;".data) ("&".data) (removeTags text))))))

theorem removeTagsF_eq_self_of_no_lt (fuel : Nat) (s : List Char) (h : '<' ∉ s) :
    removeTagsF fuel s = s := by
  induction fuel generalizing s with
  | zero => cases s <;> rfl
  | succ fuel ih =>
    cases s with
    | nil => rfl
    | cons c cs =>
      have hc : ¬(c = '<') := fun hEq => h (hEq ▸ List.mem_cons_self c cs)
      have hcs : '<' ∉ cs := fun hm => h (List.mem_cons_of_mem c hm)
      rw [removeTagsF, if_neg hc, ih cs hcs]

theorem removeTags_eq_self_of_no_lt (s : List Char) (h : '<' ∉ s) :
    removeTags s = s :=
  removeTagsF_eq_self_of_no_lt s.length s h

theorem pyReplaceF_eq_self_of_head_not_mem (c₀ : Char) (p' rep : List Char) (fuel : Nat)
    (s : List Char) (h : c₀ ∉ s) : pyReplaceF (c₀ :: p') rep fuel s = s := by
  induction fuel generalizing s with
  | zero => cases s <;> rfl
  | succ fuel ih =>
    cases s with
    | nil => rfl
    | cons c cs =>
      have hc : ¬(c₀ = c) := fun hEq => h (hEq ▸ List.mem_cons_self c cs)
      have hpre : ((c₀ :: p').isPrefixOf (c :: cs)) = false := by
        simp [List.isPrefixOf, hc]
      rw [pyReplaceF, if_neg (by simp [hpre]),
        ih cs (fun hm => h (List.mem_cons_of_mem c hm))]

theorem pyReplace_eq_self_of_head_not_mem (c₀ : Char) (p' rep s : List Char)
    (h : c₀ ∉ s) : pyReplace (c₀ :: p') rep s = s :=
  pyReplaceF_eq_self_of_head_not_mem c₀ p' rep s.length s h

theorem mem_pyStrip (c : Char) (s : List Char) (h : c ∈ pyStrip s) : c ∈ s := by
  have h1 : c ∈ (s.dropWhile isPySpace) := by
    have hpre := List.rdropWhile_prefix isPySpace (s.dropWhile isPySpace)
    exact hpre.subset h
  exact (List.dropWhile_suffix isPySpace).subset h1

theorem dropWhile_head_false (p : Char → Bool) (l : List Char) (hd : Char) (tl : List Char)
    (h : l.dropWhile p = hd :: tl) : p hd = false := by
  induction l with
  | nil => simp [List.dropWhile] at h
  | cons c cs ih =>
    rw [List.dropWhile_cons] at h
    by_cases hc : p c
    · rw [if_pos hc] at h
      exact ih h
    · rw [if_neg hc] at h
      cases h
      simpa using hc

theorem pyStrip_idem (s : List Char) : pyStrip (pyStrip s) = pyStrip s := by
  unfold pyStrip
  have h1 : (List.rdropWhile isPySpace (s.dropWhile isPySpace)).dropWhile isPySpace =
      List.rdropWhile isPySpace (s.dropWhile isPySpace) := by
    cases hv : List.rdropWhile isPySpace (s.dropWhile isPySpace) with
    | nil => rfl
    | cons hd tl =>
      obtain ⟨w, hw⟩ := List.rdropWhile_prefix isPySpace (s.dropWhile isPySpace)
      rw [hv] at hw
      have hfull : s.dropWhile isPySpace = hd :: (tl ++ w) := by
        rw [← hw]
        rfl
      have hhd := dropWhile_head_false isPySpace s hd (tl ++ w) hfull
      rw [List.dropWhile_cons, if_neg (by simp [hhd])]
  rw [h1, List.rdropWhile_idempotent]

/-- Counterexample to claim C3 as stated: unescaping can synthesize a new
entity, so cleaning is not idempotent.  `&amp;amp;` cleans to `&amp;`, which
cleans again to `&`. -/
theorem clean_html_not_idempotent :
    _clean_html (_clean_html ("&amp;amp;".data)) ≠ _clean_html ("&amp;amp;".data) := by
  decide


/-- The tag pattern `<[^>]+>` fails to match right after a `<` that is
followed by `cs`: either `cs` holds no `>` at all, or its first `>` comes
immediately (the character class needs at least one character). -/
def ltOk (cs : List Char) : Bool :=
  match cs.dropWhile (fun ch => ch ≠ '>') with
  | [] => true
  | _ :: _ => (cs.takeWhile (fun ch => ch ≠ '>')).isEmpty

/-- A string on which tag removal fires nowhere: at every `<` the tag
pattern fails to match. -/
def tagFree : List Char → Bool
  | [] => true
  | c :: cs => (if c = '<' then ltOk cs else true) && tagFree cs

theorem dropWhile_gt_shape (cs : List Char) :
    cs.dropWhile (fun ch => ch ≠ '>') = [] ∨
      ∃ b, cs.dropWhile (fun ch => ch ≠ '>') = '>' :: b := by
  cases hd : cs.dropWhile (fun ch => ch ≠ '>') with
  | nil => exact Or.inl rfl
  | cons c' rest =>
    have hc' := dropWhile_head_false (fun ch => ch ≠ '>') cs c' rest hd
    have hgt : c' = '>' := by simpa using hc'
    exact Or.inr ⟨rest, by rw [hgt]⟩

theorem removeTagsF_succ_cons_ne (fuel : Nat) (c : Char) (cs : List Char)
    (hc : ¬(c = '<')) :
    removeTagsF (fuel + 1) (c :: cs) = c :: removeTagsF fuel cs := by
  rw [removeTagsF, if_neg hc]

theorem removeTagsF_succ_cons_no_gt (fuel : Nat) (cs : List Char)
    (hd : cs.dropWhile (fun ch => ch ≠ '>') = []) :
    removeTagsF (fuel + 1) ('<' :: cs) = '<' :: removeTagsF fuel cs := by
  rw [removeTagsF, if_pos rfl, hd]

theorem removeTagsF_succ_cons_gt_imm (fuel : Nat) (cs b : List Char)
    (hd : cs.dropWhile (fun ch => ch ≠ '>') = '>' :: b)
    (he : (cs.takeWhile (fun ch => ch ≠ '>')).isEmpty = true) :
    removeTagsF (fuel + 1) ('<' :: cs) = '<' :: removeTagsF fuel cs := by
  rw [removeTagsF, if_pos rfl, hd]
  show (if (cs.takeWhile (fun ch => ch ≠ '>')).isEmpty = true then '<' :: removeTagsF fuel cs
    else removeTagsF fuel b) = '<' :: removeTagsF fuel cs
  rw [if_pos he]

theorem removeTagsF_succ_cons_gt_fire (fuel : Nat) (cs b : List Char)
    (hd : cs.dropWhile (fun ch => ch ≠ '>') = '>' :: b)
    (hne : (cs.takeWhile (fun ch => ch ≠ '>')).isEmpty = false) :
    removeTagsF (fuel + 1) ('<' :: cs) = removeTagsF fuel b := by
  rw [removeTagsF, if_pos rfl, hd]
  show (if (cs.takeWhile (fun ch => ch ≠ '>')).isEmpty = true then '<' :: removeTagsF fuel cs
    else removeTagsF fuel b) = removeTagsF fuel b
  rw [if_neg (by rw [hne]; decide)]

theorem ltOk_of_drop_nil (cs : List Char)
    (hd : cs.dropWhile (fun ch => ch ≠ '>') = []) : ltOk cs = true := by
  unfold ltOk
  rw [hd]

theorem ltOk_of_drop_gt (cs b : List Char)
    (hd : cs.dropWhile (fun ch => ch ≠ '>') = '>' :: b) :
    ltOk cs = (cs.takeWhile (fun ch => ch ≠ '>')).isEmpty := by
  unfold ltOk
  rw [hd]

theorem ltOk_gt_cons (x : List Char) : ltOk ('>' :: x) = true := by
  simp [ltOk, List.dropWhile_cons, List.takeWhile_cons]

theorem removeTagsF_sublist (fuel : Nat) (s : List Char) :
    (removeTagsF fuel s).Sublist s := by
  induction fuel generalizing s with
  | zero => cases s <;> exact List.Sublist.refl _
  | succ fuel ih =>
    cases s with
    | nil => exact List.Sublist.refl _
    | cons c cs =>
      by_cases hc : c = '<'
      · subst hc
        rcases dropWhile_gt_shape cs with hd | ⟨b, hd⟩
        · rw [removeTagsF_succ_cons_no_gt fuel cs hd]
          exact (ih cs).cons₂ '<'
        · cases he : (cs.takeWhile (fun ch => ch ≠ '>')).isEmpty with
          | true =>
            rw [removeTagsF_succ_cons_gt_imm fuel cs b hd he]
            exact (ih cs).cons₂ '<'
          | false =>
            rw [removeTagsF_succ_cons_gt_fire fuel cs b hd he]
            have hsuf : ('>' :: b) <:+ cs := hd ▸ List.dropWhile_suffix _
            have h2 : b.Sublist cs := (List.sublist_cons_self '>' b).trans hsuf.sublist
            exact ((ih b).trans h2).trans (List.sublist_cons_self '<' cs)
      · rw [removeTagsF_succ_cons_ne fuel c cs hc]
        exact (ih cs).cons₂ c

theorem ltOk_append_left (l r : List Char) (h : ltOk (l ++ r) = true) :
    ltOk l = true := by
  rcases dropWhile_gt_shape l with hd | ⟨b, hd⟩
  · exact ltOk_of_drop_nil l hd
  · rw [ltOk_of_drop_gt l b hd]
    have hdar : (l ++ r).dropWhile (fun ch => ch ≠ '>') = '>' :: (b ++ r) := by
      rw [List.dropWhile_append, hd]
      simp
    have hlen : ¬((l.takeWhile (fun ch => ch ≠ '>')).length = l.length) := by
      have hsplit := List.takeWhile_append_dropWhile (fun ch => ch ≠ '>') l
      rw [hd] at hsplit
      have := congrArg List.length hsplit
      simp only [List.length_append, List.length_cons] at this
      omega
    have htw : (l ++ r).takeWhile (fun ch => ch ≠ '>') =
        l.takeWhile (fun ch => ch ≠ '>') := by
      rw [List.takeWhile_append, if_neg hlen]
    rw [ltOk_of_drop_gt (l ++ r) (b ++ r) hdar, htw] at h
    exact h

theorem tagFree_append_left (l r : List Char) (h : tagFree (l ++ r) = true) :
    tagFree l = true := by
  induction l with
  | nil => rfl
  | cons c l' ih =>
    rw [List.cons_append, tagFree, Bool.and_eq_true] at h
    obtain ⟨h1, h2⟩ := h
    rw [tagFree, Bool.and_eq_true]
    refine ⟨?_, ih h2⟩
    by_cases hc : c = '<'
    · rw [if_pos hc] at h1 ⊢
      exact ltOk_append_left l' r h1
    · rw [if_neg hc]

theorem tagFree_tail (c : Char) (cs : List Char) (h : tagFree (c :: cs) = true) :
    tagFree cs = true := by
  rw [tagFree, Bool.and_eq_true] at h
  exact h.2

theorem tagFree_dropWhile (p : Char → Bool) (l : List Char) (h : tagFree l = true) :
    tagFree (l.dropWhile p) = true := by
  induction l with
  | nil => rfl
  | cons c cs ih =>
    rw [List.dropWhile_cons]
    by_cases hp : p c
    · rw [if_pos hp]
      exact ih (tagFree_tail c cs h)
    · rw [if_neg hp]
      exact h

theorem tagFree_pyStrip (t : List Char) (h : tagFree t = true) :
    tagFree (pyStrip t) = true := by
  unfold pyStrip
  have h1 : tagFree (t.dropWhile isPySpace) = true := tagFree_dropWhile _ _ h
  obtain ⟨w, hw⟩ := List.rdropWhile_prefix isPySpace (t.dropWhile isPySpace)
  exact tagFree_append_left _ w (by rw [hw]; exact h1)

theorem removeTagsF_id_of_tagFree (fuel : Nat) (l : List Char)
    (h : tagFree l = true) : removeTagsF fuel l = l := by
  induction fuel generalizing l with
  | zero => cases l <;> rfl
  | succ fuel ih =>
    cases l with
    | nil => rfl
    | cons c cs =>
      have htail : tagFree cs = true := tagFree_tail c cs h
      by_cases hc : c = '<'
      · have hok : ltOk cs = true := by
          rw [tagFree, Bool.and_eq_true] at h
          have h1 := h.1
          rwa [if_pos hc] at h1
        subst hc
        rcases dropWhile_gt_shape cs with hd | ⟨b, hd⟩
        · rw [removeTagsF_succ_cons_no_gt fuel cs hd, ih cs htail]
        · have he : (cs.takeWhile (fun ch => ch ≠ '>')).isEmpty = true := by
            rw [ltOk_of_drop_gt cs b hd] at hok
            exact hok
          rw [removeTagsF_succ_cons_gt_imm fuel cs b hd he, ih cs htail]
      · rw [removeTagsF_succ_cons_ne fuel c cs hc, ih cs htail]

theorem removeTagsF_tagFree (fuel : Nat) (s : List Char) (hle : s.length ≤ fuel) :
    tagFree (removeTagsF fuel s) = true := by
  induction fuel generalizing s with
  | zero =>
    have hnil : s = [] := List.eq_nil_of_length_eq_zero (Nat.le_zero.mp hle)
    rw [hnil]
    rfl
  | succ fuel ih =>
    cases s with
    | nil => rfl
    | cons c cs =>
      have hle' : cs.length ≤ fuel := by
        simp only [List.length_cons] at hle
        omega
      by_cases hc : c = '<'
      · subst hc
        rcases dropWhile_gt_shape cs with hd | ⟨b, hd⟩
        · rw [removeTagsF_succ_cons_no_gt fuel cs hd]
          rw [tagFree, Bool.and_eq_true]
          refine ⟨?_, ih cs hle'⟩
          rw [if_pos rfl]
          have hall : ∀ x ∈ cs, (fun ch => (ch ≠ '>' : Bool)) x = true := by
            intro x hx
            exact (List.dropWhile_eq_nil_iff.mp hd) x hx
          have hRd : (removeTagsF fuel cs).dropWhile (fun ch => ch ≠ '>') = [] :=
            List.dropWhile_eq_nil_iff.mpr
              (fun x hx => hall x ((removeTagsF_sublist fuel cs).subset hx))
          exact ltOk_of_drop_nil _ hRd
        · cases he : (cs.takeWhile (fun ch => ch ≠ '>')).isEmpty with
          | true =>
            rw [removeTagsF_succ_cons_gt_imm fuel cs b hd he]
            rw [tagFree, Bool.and_eq_true]
            refine ⟨?_, ih cs hle'⟩
            rw [if_pos rfl]
            have htw : cs.takeWhile (fun ch => ch ≠ '>') = [] := by
              cases hx : cs.takeWhile (fun ch => ch ≠ '>') with
              | nil => rfl
              | cons y ys =>
                rw [hx] at he
                simp [List.isEmpty] at he
            have hcs : cs = '>' :: b := by
              have hsplit := List.takeWhile_append_dropWhile (fun ch => ch ≠ '>') cs
              rw [htw, hd] at hsplit
              exact hsplit.symm
            rw [hcs]
            cases fuel with
            | zero => exact ltOk_gt_cons b
            | succ g =>
              rw [removeTagsF_succ_cons_ne g '>' b (by decide)]
              exact ltOk_gt_cons _
          | false =>
            rw [removeTagsF_succ_cons_gt_fire fuel cs b hd he]
            have hsuf : ('>' :: b) <:+ cs := hd ▸ List.dropWhile_suffix _
            have hlb := hsuf.length_le
            simp only [List.length_cons] at hlb
            exact ih b (by omega)
      · rw [removeTagsF_succ_cons_ne fuel c cs hc]
        rw [tagFree, Bool.and_eq_true]
        exact ⟨by rw [if_neg hc], ih cs hle'⟩

theorem removeTags_tagFree (s : List Char) : tagFree (removeTags s) = true :=
  removeTagsF_tagFree s.length s (Nat.le_refl _)

theorem removeTags_id_of_tagFree (l : List Char) (h : tagFree l = true) :
    removeTags l = l :=
  removeTagsF_id_of_tagFree l.length l h

/-- Claim C3 (amended): `_clean_html` is idempotent on every string that
contains no `&` character, `<` included; it is not idempotent in general,
because entity unescaping can synthesize a new entity (`&amp;amp;` →
`&amp;` → `&`).  On an `&`-free string cleaning reduces to tag removal and
stripping, tag removal is the identity on its own (stripped) image, and
stripping is idempotent. -/
theorem clean_html_idem_of_no_amp (s : List Char) (h1 : '&' ∉ s) :
    _clean_html (_clean_html s) = _clean_html s := by
  have hclean : ∀ t : List Char, '&' ∉ t → _clean_html t = pyStrip (removeTags t) := by
    intro t ha
    have hat : '&' ∉ removeTags t :=
      fun hm => ha ((removeTagsF_sublist t.length t).subset hm)
    unfold _clean_html
    rw [pyReplace_eq_self_of_head_not_mem '&' _ _ _ hat]
    rw [pyReplace_eq_self_of_head_not_mem '&' _ _ _ hat]
    rw [pyReplace_eq_self_of_head_not_mem '&' _ _ _ hat]
    rw [pyReplace_eq_self_of_head_not_mem '&' _ _ _ hat]
    rw [pyReplace_eq_self_of_head_not_mem '&' _ _ _ hat]
  rw [hclean s h1]
  have hamp2 : '&' ∉ pyStrip (removeTags s) := fun hm =>
    h1 ((removeTagsF_sublist s.length s).subset (mem_pyStrip _ _ hm))
  rw [hclean _ hamp2]
  have htf : tagFree (pyStrip (removeTags s)) = true :=
    tagFree_pyStrip _ (removeTags_tagFree s)
  rw [removeTags_id_of_tagFree _ htf]
  exact pyStrip_idem (removeTags s)

/-- Witness for the amended C3: idempotence at a concrete `&`-free title
that contains tags and a stray `<>`. -/
theorem clean_html_idem_witness :
    _clean_html (_clean_html ("  <b>plain <>title</b>  ".data)) =
      _clean_html ("  <b>plain <>title</b>  ".data) :=
  clean_html_idem_of_no_amp ("  <b>plain <>title</b>  ".data) (by decide)


/-- Split a string at the first occurrence of `pat`: returns the text before
the occurrence and the text after it, or `none` when `pat` does not occur.
This is the engine behind the lazy `(.*?)` captures of the feed parser. -/
def splitAtFirst (pat : List Char) : List Char → Option (List Char × List Char)
  | [] => if pat.isEmpty then some ([], []) else none
  | c :: cs =>
    if pat.isPrefixOf (c :: cs) then some ([], (c :: cs).drop pat.length)
    else (splitAtFirst pat cs).map (fun pr => (c :: pr.1, pr.2))

/-- Model of `re.findall(r'<item>(.*?)</item>', text, re.DOTALL)` used by
`fetch_google_news` (news_monitor.py line 70): repeatedly find the next
`<item>`, capture lazily up to the first following `</item>` (DOTALL lets the
capture span newlines), and resume after it.  Fuel-driven for kernel
computability; fuel equal to the string length always suffices because every
round consumes at least the two delimiters. -/
def findBlocksF : Nat → List Char → List (List Char)
  | 0, _ => []
  | fuel + 1, s =>
    match splitAtFirst ("<item>".data) s with
    | none => []
    | some (_, rest1) =>
      match splitAtFirst ("</item>".data) rest1 with
      | none => []
      | some (block, rest2) => block :: findBlocksF fuel rest2

/-- All `<item>` blocks of a feed body, in document order. -/
def findBlocks (s : List Char) : List (List Char) :=
  findBlocksF s.length s

/-- Model of `re.search('<opening>(.*?)</closing>', item)` without DOTALL,
as used for `title`, `link` and `pubDate`: scan positions left to right; at
an occurrence of the opening tag the lazy capture runs to the first
following closing tag, and succeeds only if it crosses no newline (`.` does
not match a newline); on failure the scan resumes one position further. -/
def reSearchCap (opening closing : List Char) : List Char → Option (List Char)
  | [] => none
  | c :: cs =>
    if opening.isPrefixOf (c :: cs) then
      match splitAtFirst closing ((c :: cs).drop opening.length) with
      | some (cap, _) => if cap.contains '\n' then reSearchCap opening closing cs else some cap
      | none => reSearchCap opening closing cs
    else reSearchCap opening closing cs

/-- Model of `re.search(r'<source[^>]*>(.*?)</source>', item)`: like
`reSearchCap`, but the opening tag is `<source` followed by any run of
non-`>` characters and a `>`. -/
def reSearchSource : List Char → Option (List Char)
  | [] => none
  | c :: cs =>
    if ("<source".data).isPrefixOf (c :: cs) then
      match ((c :: cs).drop 7).dropWhile (fun ch => ch ≠ '>') with
      | '>' :: after =>
        match splitAtFirst ("</source>".data) after with
        | some (cap, _) => if cap.contains '\n' then reSearchSource cs else some cap
        | none => reSearchSource cs
      | _ => reSearchSource cs
    else reSearchSource cs

/-- Embedding of the per-block extraction of `fetch_google_news`
(news_monitor.py lines 73-84): a block yields an article exactly when both
a title and a link match; the title is cleaned, and `pubDate` / `source`
default to the empty string / `Unknown`. -/
def parseItem (item : List Char) : Option Article :=
  let title_match := reSearchCap ("<title>".data) ("</title>".data) item
  let link_match := reSearchCap ("<link>".data) ("</link>".data) item
  let pubdate_match := reSearchCap ("<pubDate>".data) ("</pubDate>".data) item
  let source_match := reSearchSource item
  match title_match, link_match with
  | some t, some l =>
    some ⟨_clean_html t, l, pubdate_match.getD [], source_match.getD ("Unknown".data)⟩
  | _, _ => none

/-- Embedding of the parsing loop of `fetch_google_news` (news_monitor.py
lines 70-84): consider at most the first 20 blocks, in document order, and
accumulate the articles of the blocks that yield one. -/
def parseFeed (body : List Char) : List Article :=
  ((findBlocks body).take 20).foldl
    (fun news_items item =>
      match parseItem item with
      | some a => news_items ++ [a]
      | none => news_items) []

theorem foldl_parseItem_eq_filterMap (l : List (List Char)) (init : List Article) :
    l.foldl
      (fun news_items item =>
        match parseItem item with
        | some a => news_items ++ [a]
        | none => news_items) init = init ++ l.filterMap parseItem := by
  induction l generalizing init with
  | nil => simp
  | cons x xs ih =>
    cases hfx : parseItem x with
    | none => simp [List.foldl_cons, hfx, ih, List.filterMap_cons]
    | some a => simp [List.foldl_cons, hfx, ih, List.filterMap_cons]

/-- Claim C4: the parser of `fetch_google_news` considers at most the first
20 item blocks in document order; a block lacking a title or a link match
yields no article, a block with both yields exactly one, and `pubDate` /
`source` default to the empty string / `Unknown` when absent. -/
theorem parseFeed_spec (body block t l : List Char) :
    parseFeed body = ((findBlocks body).take 20).filterMap parseItem ∧
    (parseFeed body).length ≤ 20 ∧
    (parseItem block = none ↔
      reSearchCap ("<title>".data) ("</title>".data) block = none ∨
      reSearchCap ("<link>".data) ("</link>".data) block = none) ∧
    (reSearchCap ("<title>".data) ("</title>".data) block = some t →
      reSearchCap ("<link>".data) ("</link>".data) block = some l →
      parseItem block =
        some ⟨_clean_html t, l,
          (reSearchCap ("<pubDate>".data) ("</pubDate>".data) block).getD [],
          (reSearchSource block).getD ("Unknown".data)⟩) := by
  have heq : parseFeed body = ((findBlocks body).take 20).filterMap parseItem := by
    unfold parseFeed
    rw [foldl_parseItem_eq_filterMap]
    rfl
  refine ⟨heq, ?_, ?_, ?_⟩
  · rw [heq]
    calc (((findBlocks body).take 20).filterMap parseItem).length
        ≤ ((findBlocks body).take 20).length := List.length_filterMap_le _ _
      _ ≤ 20 := List.length_take_le _ _
  · unfold parseItem
    cases reSearchCap ("<title>".data) ("</title>".data) block <;>
      cases reSearchCap ("<link>".data) ("</link>".data) block <;> simp
  · intro ht hl
    unfold parseItem
    rw [ht, hl]

/-- Witness for C4: a concrete block holding a title and a link but no
publish date and no source yields exactly one article with the defaults. -/
theorem parseFeed_spec_witness :
    parseItem ("<title>T</title><link>http://x</link>".data) =
      some ⟨"T".data, "http://x".data, [], "Unknown".data⟩ := by
  have h := (parseFeed_spec [] ("<title>T</title><link>http://x</link>".data)
    ("T".data) ("http://x".data)).2.2.2 (by decide) (by decide)
  rw [h]
  decide

/-- Process configuration (news_monitor.py lines 27-38), loaded once from the
environment; carried explicitly here. -/
structure Config where
  senderName : List Char
  senderEmail : List Char
  dailyNewsRecipient : List Char
  ilkyarAlertRecipient : List Char
  deriving DecidableEq

/-- The JSON payload `send_email` builds (news_monitor.py lines 216-228):
sender name/address, a single recipient, subject, HTML body. -/
structure EmailPayload where
  senderName : List Char
  senderEmail : List Char
  toEmail : List Char
  subject : List Char
  htmlContent : List Char
  deriving DecidableEq

/-- Outcome of the `requests.post` call inside `send_email`: either an HTTP
response with a status code and body text, or a raised transport
exception. -/
inductive PostResult where
  | response (status : Nat) (text : List Char)
  | exception (msg : List Char)
  deriving DecidableEq

/-- Embedding of `NewsMonitor.send_email` (news_monitor.py lines 214-246):
build the payload, post it, report `true` exactly for status 200 or 201,
and swallow any exception into `false`.  The transport is a parameter from
payload to outcome; totality of this function is the no-escaping-exception
guarantee of the `try`/`except` wrapper. -/
def send_email (cfg : Config) (post : EmailPayload → PostResult)
    (to_email subject html_content : List Char) : Bool :=
  let payload : EmailPayload :=
    ⟨cfg.senderName, cfg.senderEmail, to_email, subject, html_content⟩
  match post payload with
  | .response status _ => ([200, 201] : List Nat).contains status
  | .exception _ => false

/-- Claim C5: `send_email` returns `true` exactly when the provider answered
with HTTP status 200 or 201; any other status and any transport exception
yield `false`, and no exception escapes (the function is total into
`Bool`). -/
theorem send_email_spec (cfg : Config) (post : EmailPayload → PostResult)
    (to_email subject html_content : List Char) :
    send_email cfg post to_email subject html_content = true ↔
      ∃ status text,
        post ⟨cfg.senderName, cfg.senderEmail, to_email, subject, html_content⟩ =
          PostResult.response status text ∧ (status = 200 ∨ status = 201) := by
  unfold send_email
  cases hp : post ⟨cfg.senderName, cfg.senderEmail, to_email, subject, html_content⟩ with
  | response status text =>
    simp only [hp]
    constructor
    · intro h
      refine ⟨status, text, rfl, ?_⟩
      simpa using h
    · rintro ⟨st, tx, hEq, hst⟩
      cases hEq
      simpa using hst
  | exception msg =>
    simp [hp]

/-- Witness for C5: a simulated 201 response yields success, applied through
the specification. -/
theorem send_email_spec_witness :
    send_email ⟨"News Monitor".data, "news@yourdomain.com".data,
        "daily@example.com".data, "special@example.com".data⟩
      (fun _ => PostResult.response 201 []) ("a@b.c".data) ("subj".data) ("<html>".data)
      = true := by
  exact (send_email_spec ⟨"News Monitor".data, "news@yourdomain.com".data,
      "daily@example.com".data, "special@example.com".data⟩
    (fun _ => PostResult.response 201 []) ("a@b.c".data) ("subj".data) ("<html>".data)).mpr
    ⟨201, [], rfl, Or.inr rfl⟩

/-- Decimal digit character. -/
def digitChar (d : Nat) : Char :=
  Char.ofNat (48 + d)

/-- Model of Python `str(n)` for a natural number, fuel-driven for kernel
computability (fuel `n + 1` always suffices since the argument shrinks by a
factor of ten each round). -/
def natToDecF : Nat → Nat → List Char
  | 0, _ => []
  | fuel + 1, n => if n < 10 then [digitChar n] else natToDecF fuel (n / 10) ++ [digitChar (n % 10)]

/-- Decimal rendering of a natural number. -/
def natToDec (n : Nat) : List Char :=
  natToDecF (n + 1) n

/-- Two-digit zero-padded rendering, as produced by `strftime` codes
`%d`, `%H`, `%M`. -/
def pad2 (n : Nat) : List Char :=
  if n < 10 then '0' :: natToDec n else natToDec n

/-- The clock reading taken by `datetime.now()`; passed in explicitly. -/
structure DateTime where
  year : Nat
  month : Nat
  day : Nat
  hour : Nat
  minute : Nat
  deriving DecidableEq

/-- The month names produced by `strftime("%B", ...)`. -/
def monthNames : List (List Char) :=
  ["January".data, "February".data, "March".data, "April".data, "May".data,
   "June".data, "July".data, "August".data, "September".data, "October".data,
   "November".data, "December".data]

/-- Month name of a 1-based month number. -/
def monthName (m : Nat) : List Char :=
  monthNames.getD (m - 1) []

/-- Model of `datetime.now().strftime("%B %d, %Y")` (digest date line). -/
def strftimeBdY (now : DateTime) : List Char :=
  monthName now.month ++ " ".data ++ pad2 now.day ++ ", ".data ++ natToDec now.year

/-- Model of `datetime.now().strftime("%B %d, %Y %H:%M")` (alert date
line). -/
def strftimeBdYHM (now : DateTime) : List Char :=
  strftimeBdY now ++ " ".data ++ pad2 now.hour ++ ":".data ++ pad2 now.minute

/-- Number of positions of `l` at which `pat` starts (for the patterns used
here, occurrences cannot overlap, so this is the occurrence count). -/
def occ (pat : List Char) : List Char → Nat
  | [] => 0
  | c :: cs => (if pat.isPrefixOf (c :: cs) then 1 else 0) + occ pat cs

/-- The start of an HTML anchor element as emitted by the two renderers. -/
def anchorPat : List Char :=
  "<a ".data

/-- Every `<` of the string is followed by at least `n - 1` further
characters of the string, so a match of an `n`-character pattern starting at
a `<` can never straddle the string's right end. -/
def ltSafe (n : Nat) : List Char → Bool
  | [] => true
  | c :: cs => (if c = '<' then decide (n ≤ cs.length + 1) else true) && ltSafe n cs

theorem isPrefixOf_append_of_le (p l r : List Char) (h : p.length ≤ l.length) :
    p.isPrefixOf (l ++ r) = p.isPrefixOf l := by
  induction p generalizing l with
  | nil => simp [List.isPrefixOf]
  | cons a p' ih =>
    cases l with
    | nil => simp at h
    | cons b l' =>
      simp only [List.cons_append, List.isPrefixOf, List.append_eq]
      rw [ih l' (by simpa using h)]

theorem occ_cons_ne_lt (p' : List Char) (c : Char) (cs : List Char) (hc : ¬(c = '<')) :
    occ ('<' :: p') (c :: cs) = occ ('<' :: p') cs := by
  have : (('<' :: p').isPrefixOf (c :: cs)) = false := by
    simp only [List.isPrefixOf, Bool.and_eq_false_iff]
    exact Or.inl (by simpa using fun hEq => hc hEq.symm)
  rw [occ, this]
  simp

theorem occ_append (p' x y : List Char) (hx : ltSafe ('<' :: p').length x = true) :
    occ ('<' :: p') (x ++ y) = occ ('<' :: p') x + occ ('<' :: p') y := by
  induction x with
  | nil => simp [occ]
  | cons c cs ih =>
    rw [ltSafe, Bool.and_eq_true] at hx
    obtain ⟨h1, h2⟩ := hx
    by_cases hc : c = '<'
    · rw [if_pos hc] at h1
      have hlen : ('<' :: p').length ≤ (c :: cs).length := by
        simpa using of_decide_eq_true h1
      have hstep : (('<' :: p').isPrefixOf (c :: (cs ++ y))) =
          (('<' :: p').isPrefixOf (c :: cs)) := by
        have h' := isPrefixOf_append_of_le ('<' :: p') (c :: cs) y hlen
        rw [List.cons_append] at h'
        exact h'
      simp only [List.cons_append, occ, List.append_eq]
      simp only [hstep]
      rw [ih h2]
      omega
    · simp only [List.cons_append]
      rw [occ_cons_ne_lt p' c (cs ++ y) hc, occ_cons_ne_lt p' c cs hc, ih h2]

theorem occ_zero_of_no_lt (p' l : List Char) (h : '<' ∉ l) : occ ('<' :: p') l = 0 := by
  induction l with
  | nil => rfl
  | cons c cs ih =>
    have hc : ¬(c = '<') := fun hEq => h (hEq ▸ List.mem_cons_self c cs)
    rw [occ_cons_ne_lt p' c cs hc]
    exact ih (fun hm => h (List.mem_cons_of_mem c hm))

theorem ltSafe_of_no_lt (n : Nat) (l : List Char) (h : '<' ∉ l) : ltSafe n l = true := by
  induction l with
  | nil => rfl
  | cons c cs ih =>
    have hc : ¬(c = '<') := fun hEq => h (hEq ▸ List.mem_cons_self c cs)
    rw [ltSafe, if_neg hc]
    simpa using ih (fun hm => h (List.mem_cons_of_mem c hm))

theorem ltSafe_append (n : Nat) (x y : List Char) (hx : ltSafe n x = true)
    (hy : ltSafe n y = true) : ltSafe n (x ++ y) = true := by
  induction x with
  | nil => simpa using hy
  | cons c cs ih =>
    rw [ltSafe, Bool.and_eq_true] at hx
    obtain ⟨h1, h2⟩ := hx
    rw [List.cons_append, ltSafe, Bool.and_eq_true]
    refine ⟨?_, ih h2⟩
    by_cases hc : c = '<'
    · rw [if_pos hc] at h1 ⊢
      have := of_decide_eq_true h1
      simp only [List.length_append]
      exact decide_eq_true (by omega)
    · rw [if_neg hc]

theorem occ_join (p' : List Char) (segs : List (List Char))
    (h : ∀ s ∈ segs, ltSafe ('<' :: p').length s = true) :
    occ ('<' :: p') segs.flatten = (segs.map (occ ('<' :: p'))).sum ∧
      ltSafe ('<' :: p').length segs.flatten = true := by
  induction segs with
  | nil => exact ⟨rfl, rfl⟩
  | cons s rest ih =>
    have hs : ltSafe ('<' :: p').length s = true := h s (List.mem_cons_self s rest)
    obtain ⟨ihocc, ihsafe⟩ := ih (fun t ht => h t (List.mem_cons_of_mem s ht))
    rw [List.flatten_cons]
    constructor
    · rw [occ_append p' s rest.flatten hs, ihocc]
      simp
    · exact ltSafe_append _ s rest.flatten hs ihsafe

theorem digitChar_ne_lt (d : Nat) (hd : d < 10) : ¬(digitChar d = '<') := by
  interval_cases d <;> decide

theorem natToDecF_no_lt (fuel n : Nat) : '<' ∉ natToDecF fuel n := by
  induction fuel generalizing n with
  | zero => simp [natToDecF]
  | succ fuel ih =>
    rw [natToDecF]
    by_cases h : n < 10
    · rw [if_pos h]
      intro hm
      rcases List.mem_singleton.mp hm with hEq
      exact digitChar_ne_lt n h hEq.symm
    · rw [if_neg h]
      intro hm
      rcases List.mem_append.mp hm with hl | hr
      · exact ih (n / 10) hl
      · rcases List.mem_singleton.mp hr with hEq
        exact digitChar_ne_lt (n % 10) (Nat.mod_lt n (by omega)) hEq.symm

theorem natToDec_no_lt (n : Nat) : '<' ∉ natToDec n :=
  natToDecF_no_lt (n + 1) n

theorem pad2_no_lt (n : Nat) : '<' ∉ pad2 n := by
  unfold pad2
  by_cases h : n < 10
  · rw [if_pos h]
    intro hm
    rcases List.mem_cons.mp hm with hEq | hm'
    · exact absurd hEq.symm (by decide)
    · exact natToDec_no_lt n hm'
  · rw [if_neg h]
    exact natToDec_no_lt n

theorem monthName_no_lt (m : Nat) : '<' ∉ monthName m := by
  unfold monthName
  have hml : ∀ s ∈ monthNames, '<' ∉ s := by decide
  by_cases h : m - 1 < monthNames.length
  · rw [List.getD_eq_getElem monthNames [] h]
    exact hml _ (List.getElem_mem h)
  · rw [List.getD_eq_default monthNames [] (by omega)]
    simp

theorem strftimeBdY_no_lt (now : DateTime) : '<' ∉ strftimeBdY now := by
  unfold strftimeBdY
  intro hm
  rcases List.mem_append.mp hm with hm | hm
  · rcases List.mem_append.mp hm with hm | hm
    · rcases List.mem_append.mp hm with hm | hm
      · rcases List.mem_append.mp hm with hm | hm
        · exact monthName_no_lt now.month hm
        · simp at hm
      · exact pad2_no_lt now.day hm
    · simp at hm
  · exact natToDec_no_lt now.year hm

theorem strftimeBdYHM_no_lt (now : DateTime) : '<' ∉ strftimeBdYHM now := by
  unfold strftimeBdYHM
  intro hm
  rcases List.mem_append.mp hm with hm | hm
  · rcases List.mem_append.mp hm with hm | hm
    · rcases List.mem_append.mp hm with hm | hm
      · rcases List.mem_append.mp hm with hm | hm
        · exact strftimeBdY_no_lt now hm
        · simp at hm
      · exact pad2_no_lt now.hour hm
    · simp at hm
  · exact pad2_no_lt now.minute hm

/-! Template text of the two HTML renderers, split at the f-string
interpolation points of the source (news_monitor.py lines 112-161 and
163-212).  Literal braces of the CSS are written with their character
codes. -/

def alertA1 : List Char :=
  ("\n        <!DOCTYPE html>\n        <html>\n        <head>\n            <style>\n                body \x7b font-family: Arial, sans-serif; line-height: 1.6; color: #333; max-width: 600px; margin: 0 auto; \x7d\n                .header \x7b background: linear-gradient(135deg, #f093fb 0%, #f5576c 100%); color: white; padding: 20px; text-align: center; border-radius: 8px 8px 0 0; \x7d\n                .alert-badge \x7b background: #ff4757; padding: 5px 15px; border-radius: 20px; display: inline-block; margin-bottom: 10px; \x7d\n                .content \x7b padding: 20px; background: #f9f9f9; \x7d\n                .news-item \x7b background: white; padding: 15px; margin-bottom: 15px; border-radius: 8px; border-left: 4px solid #f5576c; box-shadow: 0 2px 4px rgba(0,0,0,0.1); \x7d\n                .news-title \x7b font-size: 16px; font-weight: bold; color: #333; text-decoration: none; \x7d\n                .news-meta \x7b font-size: 12px; color: #888; margin-top: 8px; \x7d\n                .keyword \x7b background: #fff3cd; padding: 2px 6px; border-radius: 3px; font-weight: bold; \x7d\n                .footer \x7b text-align: center; padding: 20px; color: #888; font-size: 12px; \x7d\n            </style>\n        </head>\n        <body>\n            <div class=\"header\">\n                <div class=\"alert-badge\">🚨 KEYWORD ALERT</div>\n                <h1>News Alert: \"").data

def alertA2 : List Char :=
  ("\"</h1>\n                <p>").data

def alertA3 : List Char :=
  ("</p>\n            </div>\n            <div class=\"content\">\n                <p>We found <strong>").data

def alertA4 : List Char :=
  ("</strong> news item(s) containing the keyword <span class=\"keyword\">").data

def alertA5 : List Char :=
  ("</span>:</p>\n        ").data

def alertB1 : List Char :=
  ("\n            <div class=\"news-item\">\n                <a href=\"").data

def alertB2 : List Char :=
  ("\" class=\"news-title\">").data

def alertB3 : List Char :=
  ("</a>\n                <div class=\"news-meta\">\n                    📌 ").data

def alertB4 : List Char :=
  (" | 🕐 ").data

def alertB5 : List Char :=
  ("\n                </div>\n            </div>\n            ").data

def alertFoot : List Char :=
  ("\n            </div>\n            <div class=\"footer\">\n                <p>This is an automated keyword alert from News Monitor</p>\n            </div>\n        </body>\n        </html>\n        ").data

def digestD1 : List Char :=
  ("\n        <!DOCTYPE html>\n        <html>\n        <head>\n            <style>\n                body \x7b font-family: Arial, sans-serif; line-height: 1.6; color: #333; max-width: 600px; margin: 0 auto; \x7d\n                .header \x7b background: linear-gradient(135deg, #667eea 0%, #764ba2 100%); color: white; padding: 20px; text-align: center; border-radius: 8px 8px 0 0; \x7d\n                .content \x7b padding: 20px; background: #f9f9f9; \x7d\n                .news-item \x7b background: white; padding: 15px; margin-bottom: 15px; border-radius: 8px; border-left: 4px solid #667eea; box-shadow: 0 2px 4px rgba(0,0,0,0.1); \x7d\n                .news-title \x7b font-size: 16px; font-weight: bold; color: #333; text-decoration: none; \x7d\n                .news-title:hover \x7b color: #667eea; \x7d\n                .news-meta \x7b font-size: 12px; color: #888; margin-top: 8px; \x7d\n                .footer \x7b text-align: center; padding: 20px; color: #888; font-size: 12px; \x7d\n            </style>\n        </head>\n        <body>\n            <div class=\"header\">\n                <h1>📰 Daily News Digest</h1>\n                <p>").data

def digestD2 : List Char :=
  ("</p>\n            </div>\n            <div class=\"content\">\n        ").data

def digestE1 : List Char :=
  ("\n                <div class=\"news-item\">\n                    <a href=\"").data

def digestE2 : List Char :=
  ("\" class=\"news-title\">").data

def digestE3 : List Char :=
  ("</a>\n                    <div class=\"news-meta\">\n                        📌 ").data

def digestE4 : List Char :=
  (" | 🕐 ").data

def digestE5 : List Char :=
  ("\n                    </div>\n                </div>\n                ").data

def digestFoot : List Char :=
  ("\n            </div>\n            <div class=\"footer\">\n                <p>This email was automatically generated by News Monitor</p>\n            </div>\n        </body>\n        </html>\n        ").data

/-- One rendered item of the keyword alert (news_monitor.py lines
193-201). -/
def alertItemHtml (item : Article) : List Char :=
  alertB1 ++ item.link ++ alertB2 ++ item.title ++ alertB3 ++ item.source ++
    alertB4 ++ item.pubDate ++ alertB5

/-- Embedding of `NewsMonitor.create_keyword_alert_html` (news_monitor.py
lines 163-212): header with keyword, timestamp and match count, one block
per matching item, footer.  All interpolations are verbatim — nothing is
HTML-escaped. -/
def create_keyword_alert_html (now : DateTime) (keyword : List Char)
    (matching_items : List Article) : List Char :=
  alertA1 ++ keyword ++ alertA2 ++ strftimeBdYHM now ++ alertA3 ++
    natToDec matching_items.length ++ alertA4 ++ keyword ++ alertA5 ++
    (matching_items.map alertItemHtml).flatten ++ alertFoot

/-- One rendered item of the daily digest (news_monitor.py lines
140-148). -/
def digestItemHtml (item : Article) : List Char :=
  digestE1 ++ item.link ++ digestE2 ++ item.title ++ digestE3 ++ item.source ++
    digestE4 ++ item.pubDate ++ digestE5

/-- Embedding of `NewsMonitor.create_daily_digest_html` (news_monitor.py
lines 112-161): header with the date, one block per item — or the literal
no-items placeholder when the list is empty — then footer. -/
def create_daily_digest_html (now : DateTime) (news_items : List Article) : List Char :=
  digestD1 ++ strftimeBdY now ++ digestD2 ++
    (if news_items.isEmpty then "<p>No news items found for today.</p>".data
     else (news_items.map digestItemHtml).flatten) ++
    digestFoot

/-- One call the orchestrator makes to `send_email`. -/
structure SendRequest where
  to_email : List Char
  subject : List Char
  htmlContent : List Char
  deriving DecidableEq

/-- The static keyword list (news_monitor.py line 38). -/
def MONITORED_KEYWORDS : List (List Char) :=
  ["ilkyar".data]

/-- The alert subject line (news_monitor.py line 303). -/
def alertSubject (keyword : List Char) (n : Nat) : List Char :=
  "🚨 News Alert: \x27".data ++ keyword ++ "\x27 mentioned in ".data ++
    natToDec n ++ " article(s)".data

/-- The per-keyword body of `run_keyword_monitor` (news_monitor.py lines
278-311): fetch the keyword-specific feed, merge it after the given items,
deduplicate by title, match, and — when matches exist — send one alert,
routed to the special recipient exactly when the lowercased keyword is
`ilkyar`.  `fetchQuery` stands for `fetch_google_news(query=keyword)`; the
send requests the loop body would issue are returned in order. -/
def processKeyword (cfg : Config) (now : DateTime) (news_items : List Article)
    (fetchQuery : List Char → List Article) (keyword : List Char) : List SendRequest :=
  let keyword_news := fetchQuery keyword
  let all_news := news_items ++ keyword_news
  let unique_news := dedupByTitle all_news
  let matching_items := check_keyword_in_news unique_news keyword
  if matching_items.isEmpty then []
  else
    let html_content := create_keyword_alert_html now keyword matching_items
    let subject := alertSubject keyword matching_items.length
    if lowerStr keyword = "ilkyar".data then
      [⟨cfg.ilkyarAlertRecipient, subject, html_content⟩]
    else
      [⟨cfg.dailyNewsRecipient, subject, html_content⟩]

/-- Embedding of `NewsMonitor.run_keyword_monitor` (news_monitor.py lines
267-311): use the given items, or the top-stories fetch when none are
given, and process each monitored keyword in order, collecting the send
requests. -/
def run_keyword_monitor (cfg : Config) (now : DateTime)
    (news_items : Option (List Article)) (fetchTop : List Article)
    (fetchQuery : List Char → List Article) : List SendRequest :=
  let items := news_items.getD fetchTop
  (MONITORED_KEYWORDS.map (processKeyword cfg now items fetchQuery)).flatten

/-- Claim C8: the digest rendered from an empty article list contains the
literal no-items placeholder and no anchor element. -/
theorem create_daily_digest_html_empty (now : DateTime) :
    strContains (create_daily_digest_html now [])
      ("<p>No news items found for today.</p>".data) = true ∧
    occ anchorPat (create_daily_digest_html now []) = 0 := by
  have hpat : anchorPat = '<' :: "a ".data := by decide
  have hhtml : create_daily_digest_html now [] =
      digestD1 ++ strftimeBdY now ++ digestD2 ++
        "<p>No news items found for today.</p>".data ++ digestFoot := by
    simp [create_daily_digest_html]
  constructor
  · rw [strContains_iff, hhtml]
    refine ⟨digestD1 ++ strftimeBdY now ++ digestD2, digestFoot, ?_⟩
    simp [List.append_assoc]
  · rw [hhtml, hpat]
    simp only [List.append_assoc]
    rw [occ_append "a ".data digestD1 _ (by decide)]
    rw [occ_append "a ".data (strftimeBdY now) _
      (ltSafe_of_no_lt _ _ (strftimeBdY_no_lt now))]
    rw [occ_append "a ".data digestD2 _ (by decide)]
    rw [occ_append "a ".data ("<p>No news items found for today.</p>".data) _ (by decide)]
    rw [occ_zero_of_no_lt "a ".data (strftimeBdY now) (strftimeBdY_no_lt now)]
    have h1 : occ ('<' :: "a ".data) digestD1 = 0 := by decide
    have h2 : occ ('<' :: "a ".data) digestD2 = 0 := by decide
    have h3 : occ ('<' :: "a ".data) ("<p>No news items found for today.</p>".data) = 0 := by
      decide
    have h4 : occ ('<' :: "a ".data) digestFoot = 0 := by decide
    omega


theorem alertItemHtml_occ (a : Article)
    (h : '<' ∉ a.title ∧ '<' ∉ a.link ∧ '<' ∉ a.pubDate ∧ '<' ∉ a.source) :
    occ ('<' :: "a ".data) (alertItemHtml a) = 1 ∧
    ltSafe ('<' :: "a ".data).length (alertItemHtml a) = true := by
  obtain ⟨ht, hl, hp, hs⟩ := h
  unfold alertItemHtml
  simp only [List.append_assoc]
  constructor
  · rw [occ_append "a ".data alertB1 _ (by decide)]
    rw [occ_append "a ".data a.link _ (ltSafe_of_no_lt _ _ hl)]
    rw [occ_append "a ".data alertB2 _ (by decide)]
    rw [occ_append "a ".data a.title _ (ltSafe_of_no_lt _ _ ht)]
    rw [occ_append "a ".data alertB3 _ (by decide)]
    rw [occ_append "a ".data a.source _ (ltSafe_of_no_lt _ _ hs)]
    rw [occ_append "a ".data alertB4 _ (by decide)]
    rw [occ_append "a ".data a.pubDate _ (ltSafe_of_no_lt _ _ hp)]
    rw [occ_zero_of_no_lt "a ".data a.link hl, occ_zero_of_no_lt "a ".data a.title ht,
      occ_zero_of_no_lt "a ".data a.source hs, occ_zero_of_no_lt "a ".data a.pubDate hp]
    have b1 : occ ('<' :: "a ".data) alertB1 = 1 := by decide
    have b2 : occ ('<' :: "a ".data) alertB2 = 0 := by decide
    have b3 : occ ('<' :: "a ".data) alertB3 = 0 := by decide
    have b4 : occ ('<' :: "a ".data) alertB4 = 0 := by decide
    have b5 : occ ('<' :: "a ".data) alertB5 = 0 := by decide
    omega
  · refine ltSafe_append _ _ _ (by decide) ?_
    refine ltSafe_append _ _ _ (ltSafe_of_no_lt _ _ hl) ?_
    refine ltSafe_append _ _ _ (by decide) ?_
    refine ltSafe_append _ _ _ (ltSafe_of_no_lt _ _ ht) ?_
    refine ltSafe_append _ _ _ (by decide) ?_
    refine ltSafe_append _ _ _ (ltSafe_of_no_lt _ _ hs) ?_
    refine ltSafe_append _ _ _ (by decide) ?_
    refine ltSafe_append _ _ _ (ltSafe_of_no_lt _ _ hp) ?_
    decide

theorem alertItems_occ (items : List Article)
    (h : ∀ a ∈ items, '<' ∉ a.title ∧ '<' ∉ a.link ∧ '<' ∉ a.pubDate ∧ '<' ∉ a.source) :
    occ ('<' :: "a ".data) (items.map alertItemHtml).flatten = items.length ∧
    ltSafe ('<' :: "a ".data).length (items.map alertItemHtml).flatten = true := by
  induction items with
  | nil => exact ⟨rfl, rfl⟩
  | cons a rest ih =>
    obtain ⟨hocc, hsafe⟩ := ih (fun b hb => h b (List.mem_cons_of_mem a hb))
    obtain ⟨haocc, hasafe⟩ := alertItemHtml_occ a (h a (List.mem_cons_self a rest))
    rw [List.map_cons, List.flatten_cons]
    constructor
    · rw [occ_append "a ".data _ _ hasafe, haocc, hocc]
      simp only [List.length_cons]
      omega
    · exact ltSafe_append _ _ _ hasafe hsafe

theorem alert_html_occ (now : DateTime) (keyword : List Char) (matching_items : List Article)
    (hks : ltSafe ('<' :: "a ".data).length keyword = true)
    (hk0 : occ ('<' :: "a ".data) keyword = 0) (m : Nat)
    (hio : occ ('<' :: "a ".data) (matching_items.map alertItemHtml).flatten = m)
    (his : ltSafe ('<' :: "a ".data).length (matching_items.map alertItemHtml).flatten = true) :
    occ anchorPat (create_keyword_alert_html now keyword matching_items) = m := by
  have hpat : anchorPat = '<' :: "a ".data := by decide
  rw [hpat]
  unfold create_keyword_alert_html
  simp only [List.append_assoc]
  rw [occ_append "a ".data alertA1 _ (by decide)]
  rw [occ_append "a ".data keyword _ hks]
  rw [occ_append "a ".data alertA2 _ (by decide)]
  rw [occ_append "a ".data (strftimeBdYHM now) _
    (ltSafe_of_no_lt _ _ (strftimeBdYHM_no_lt now))]
  rw [occ_append "a ".data alertA3 _ (by decide)]
  rw [occ_append "a ".data (natToDec matching_items.length) _
    (ltSafe_of_no_lt _ _ (natToDec_no_lt _))]
  rw [occ_append "a ".data alertA4 _ (by decide)]
  rw [occ_append "a ".data keyword _ hks]
  rw [occ_append "a ".data alertA5 _ (by decide)]
  rw [occ_append "a ".data _ _ his]
  rw [hio, hk0]
  rw [occ_zero_of_no_lt "a ".data (strftimeBdYHM now) (strftimeBdYHM_no_lt now)]
  rw [occ_zero_of_no_lt "a ".data (natToDec matching_items.length) (natToDec_no_lt _)]
  have a1 : occ ('<' :: "a ".data) alertA1 = 0 := by decide
  have a2 : occ ('<' :: "a ".data) alertA2 = 0 := by decide
  have a3 : occ ('<' :: "a ".data) alertA3 = 0 := by decide
  have a4 : occ ('<' :: "a ".data) alertA4 = 0 := by decide
  have a5 : occ ('<' :: "a ".data) alertA5 = 0 := by decide
  have af : occ ('<' :: "a ".data) alertFoot = 0 := by decide
  omega

/-- Claim C7 (amended): when the keyword and every interpolated article
field contain no `<` character, the rendered alert states the match count N
in its lead text and contains exactly N anchor elements.  Without that
restriction the claim fails, because fields are interpolated verbatim (see
the counterexample, where a title smuggles in its own anchor). -/
theorem create_keyword_alert_html_spec (now : DateTime) (keyword : List Char)
    (matching_items : List Article) (hkw : '<' ∉ keyword)
    (hfields : ∀ a ∈ matching_items,
      '<' ∉ a.title ∧ '<' ∉ a.link ∧ '<' ∉ a.pubDate ∧ '<' ∉ a.source) :
    strContains (create_keyword_alert_html now keyword matching_items)
      ("We found <strong>".data ++ natToDec matching_items.length ++
        "</strong>".data) = true ∧
    occ anchorPat (create_keyword_alert_html now keyword matching_items) =
      matching_items.length := by
  constructor
  · rw [strContains_iff]
    have hA3 : alertA3 =
        ("</p>\n            </div>\n            <div class=\"content\">\n                <p>".data)
          ++ ("We found <strong>".data) := by decide
    have hA4 : alertA4 =
        ("</strong>".data) ++
          (" news item(s) containing the keyword <span class=\"keyword\">".data) := by decide
    refine ⟨alertA1 ++ keyword ++ alertA2 ++ strftimeBdYHM now ++
        ("</p>\n            </div>\n            <div class=\"content\">\n                <p>".data),
      (" news item(s) containing the keyword <span class=\"keyword\">".data) ++ keyword ++
        alertA5 ++ (matching_items.map alertItemHtml).flatten ++ alertFoot, ?_⟩
    unfold create_keyword_alert_html
    rw [hA3, hA4]
    simp [List.append_assoc]
  · obtain ⟨hiocc, hisafe⟩ := alertItems_occ matching_items hfields
    exact alert_html_occ now keyword matching_items
      (ltSafe_of_no_lt _ _ hkw) (occ_zero_of_no_lt _ _ hkw) _ hiocc hisafe

/-- An article whose title already carries an anchor element. -/
def alertInjectionArticle : Article :=
  ⟨"ilkyar <a href=\"https://x\">boom</a>".data, "https://l".data, "Mon".data, "Src".data⟩

/-- Counterexample to claim C7 as stated: article fields are interpolated
verbatim, so one matching article whose title contains an anchor produces an
alert with two anchor elements, not one. -/
theorem create_keyword_alert_html_anchor_counterexample :
    ¬ (occ anchorPat
        (create_keyword_alert_html ⟨2025, 10, 12, 9, 30⟩ ("ilkyar".data)
          [alertInjectionArticle]) =
      ([alertInjectionArticle] : List Article).length) := by
  have hblock : occ ('<' :: "a ".data) (alertItemHtml alertInjectionArticle) = 2 := by
    unfold alertItemHtml
    simp only [List.append_assoc]
    rw [occ_append "a ".data alertB1 _ (by decide)]
    rw [occ_append "a ".data (alertInjectionArticle.link) _ (by decide)]
    rw [occ_append "a ".data alertB2 _ (by decide)]
    rw [occ_append "a ".data (alertInjectionArticle.title) _ (by decide)]
    rw [occ_append "a ".data alertB3 _ (by decide)]
    rw [occ_append "a ".data (alertInjectionArticle.source) _ (by decide)]
    rw [occ_append "a ".data alertB4 _ (by decide)]
    decide
  have hsafe : ltSafe ('<' :: "a ".data).length (alertItemHtml alertInjectionArticle) = true := by
    unfold alertItemHtml
    simp only [List.append_assoc]
    refine ltSafe_append _ _ _ (by decide) ?_
    refine ltSafe_append _ _ _ (by decide) ?_
    refine ltSafe_append _ _ _ (by decide) ?_
    refine ltSafe_append _ _ _ (by decide) ?_
    refine ltSafe_append _ _ _ (by decide) ?_
    refine ltSafe_append _ _ _ (by decide) ?_
    refine ltSafe_append _ _ _ (by decide) ?_
    refine ltSafe_append _ _ _ (by decide) ?_
    decide
  have hflat : occ ('<' :: "a ".data)
      (([alertInjectionArticle].map alertItemHtml).flatten) = 2 := by
    rw [List.map_cons, List.map_nil, List.flatten_cons, List.flatten_nil, List.append_nil]
    exact hblock
  have hflats : ltSafe ('<' :: "a ".data).length
      (([alertInjectionArticle].map alertItemHtml).flatten) = true := by
    rw [List.map_cons, List.map_nil, List.flatten_cons, List.flatten_nil, List.append_nil]
    exact hsafe
  have h2 := alert_html_occ ⟨2025, 10, 12, 9, 30⟩ ("ilkyar".data) [alertInjectionArticle]
    (by decide) (by decide) 2 hflat hflats
  rw [h2]
  decide

/-- An ordinary matching article with plain fields. -/
def alertWitnessArticle : Article :=
  ⟨"ilkyar rally".data, "https://x".data, "Mon".data, "Src".data⟩

/-- Witness for the amended C7: the count phrase and the single anchor of a
one-match alert, obtained through the specification. -/
theorem create_keyword_alert_html_spec_witness :
    strContains (create_keyword_alert_html ⟨2025, 10, 12, 9, 30⟩ ("ilkyar".data)
        [alertWitnessArticle])
      ("We found <strong>".data ++
        natToDec ([alertWitnessArticle] : List Article).length ++ "</strong>".data) = true ∧
    occ anchorPat (create_keyword_alert_html ⟨2025, 10, 12, 9, 30⟩ ("ilkyar".data)
        [alertWitnessArticle]) = ([alertWitnessArticle] : List Article).length :=
  create_keyword_alert_html_spec ⟨2025, 10, 12, 9, 30⟩ ("ilkyar".data)
    [alertWitnessArticle] (by decide) (by decide)

/-- Claim C9: alert routing compares the keyword case-insensitively — when a
keyword has matches, its single alert goes to the special recipient exactly
when the lowercased keyword is `ilkyar` and to the daily-digest recipient
otherwise; both `ILKYAR` and `IlkYar` lowercase to `ilkyar`. -/
theorem processKeyword_routing (cfg : Config) (now : DateTime) (news_items : List Article)
    (fetchQuery : List Char → List Article) (keyword : List Char) :
    ((processKeyword cfg now news_items fetchQuery keyword).map (fun r => r.to_email) =
      if (check_keyword_in_news (dedupByTitle (news_items ++ fetchQuery keyword))
          keyword).isEmpty then []
      else [if lowerStr keyword = "ilkyar".data then cfg.ilkyarAlertRecipient
            else cfg.dailyNewsRecipient]) ∧
    lowerStr ("ILKYAR".data) = "ilkyar".data ∧
    lowerStr ("IlkYar".data) = "ilkyar".data := by
  refine ⟨?_, by decide, by decide⟩
  cases h : (check_keyword_in_news (dedupByTitle (news_items ++ fetchQuery keyword))
      keyword).isEmpty with
  | true => simp [processKeyword, h]
  | false =>
    by_cases hk : lowerStr keyword = "ilkyar".data
    · simp [processKeyword, h, hk]
    · simp [processKeyword, h, hk]

/-- The first feed item of the end-to-end scenario of claim C6. -/
def scenarioArticle1 : Article :=
  ⟨"ilkyar rally draws crowd".data, "https://news.example/1".data,
   "Mon, 01 Jan 2024 00:00:00 GMT".data, "Example Source".data⟩

/-- The second feed item of the end-to-end scenario of claim C6. -/
def scenarioArticle2 : Article :=
  ⟨"weather update".data, "https://news.example/2".data,
   "Mon, 01 Jan 2024 00:00:00 GMT".data, "Example Source".data⟩

/-- A concrete configuration with the two distinct recipients of the
source's defaults. -/
def scenarioConfig : Config :=
  ⟨"News Monitor".data, "news@yourdomain.com".data, "your-email@example.com".data,
   "special-recipient@example.com".data⟩

/-- Claim C6: in the scenario where both feed fetches return exactly the two
items titled `ilkyar rally draws crowd` and `weather update`,
`run_keyword_monitor` issues exactly one send, addressed to the special
ilkyar recipient, whose HTML body mentions the first title and not the
second. -/
theorem run_keyword_monitor_scenario :
    (run_keyword_monitor scenarioConfig ⟨2025, 10, 12, 9, 30⟩
        (some [scenarioArticle1, scenarioArticle2]) []
        (fun _ => [scenarioArticle1, scenarioArticle2])).map
      (fun r => (r.to_email,
        strContains r.htmlContent ("ilkyar rally draws crowd".data),
        strContains r.htmlContent ("weather update".data))) =
      [("special-recipient@example.com".data, true, false)] := by
  decide
